import Mathlib

/- Verification of the history record store implemented in `history_manager.py`
   of the BettaFish repository.  The store keeps one JSON file per record in a
   storage directory and offers five operations: `save_record`, `get_record`,
   `get_all_records`, `delete_record` and `clear_all_records`.  Every operation
   wraps its whole body in a `try`/`except` that converts any internal failure
   into the operation's negative result (`False`, `None` or `[]`).  The
   embedding below models the storage directory as a list of named files in
   enumeration order, file contents as either a well-formed serialized record
   or corrupt bytes, and possible I/O failures through explicit fault
   parameters; Python exceptions are modelled with `Except Unit`. -/

namespace HistoryStore

/-- Embedding of the `HistoryRecord` dataclass: the nine fields of a record.
`metadata` is an optional JSON object, modelled as an association list. -/
structure HistoryRecord where
  id : String
  query : String
  status : String
  created_at : String
  updated_at : String
  report_file_path : Option String
  report_html : Option String
  error_message : Option String
  metadata : Option (List (String × String))
deriving DecidableEq

/-- Content of one file in the storage directory: either the JSON
serialization of a record (`json.dump` of `asdict(record)`, which
`json.load` followed by `HistoryRecord(**data)` inverts), or content on
which that deserialization raises. -/
inductive FileContent where
  | record : HistoryRecord → FileContent
  | corrupt : FileContent
deriving DecidableEq

/-- The storage directory: its files, in filesystem enumeration order, and a
flag recording that the directory itself exists (`mkdir(exist_ok=True)` in
`__init__` establishes it; no operation removes the directory). -/
structure Store where
  files : List (String × FileContent)
  dirExists : Bool
deriving DecidableEq

/-- Decidable equality for `Except`, used to evaluate the embedding on
concrete inputs. -/
instance exceptDecEq {ε α : Type} [DecidableEq ε] [DecidableEq α] : DecidableEq (Except ε α)
  | .ok a, .ok b =>
      if h : a = b then .isTrue (by rw [h]) else .isFalse (by intro hc; cases hc; exact h rfl)
  | .ok _, .error _ => .isFalse (by intro hc; cases hc)
  | .error _, .ok _ => .isFalse (by intro hc; cases hc)
  | .error a, .error b =>
      if h : a = b then .isTrue (by rw [h]) else .isFalse (by intro hc; cases hc; exact h rfl)

/-- Suffix test on strings, modelling the glob pattern `*.json` used by
`get_all_records` and `clear_all_records` (a name matches exactly when it
ends with the extension). -/
def strEndsWith (s suff : String) : Bool := suff.data.isSuffixOf s.data

/-- A file entry matched by `glob("*.json")`. -/
def isJsonFile (f : String × FileContent) : Bool := strEndsWith f.1 ".json"

/-- The file name used for a record id: `f"{record_id}.json"`. -/
def fileName (rid : String) : String := rid ++ ".json"

/-- Directory lookup of a file by exact name. -/
def lookup (name : String) (fs : List (String × FileContent)) : Option FileContent :=
  (fs.find? (fun f => f.1 == name)).map (fun f => f.2)

/-- Deserialization of one file: `json.load` plus `HistoryRecord(**data)`;
corrupt content raises. -/
def parseFile : FileContent → Except Unit HistoryRecord
  | .record r => .ok r
  | .corrupt => .error ()

/-- A Python value as used for sort keys: a `str`, `None`, a `dict`, or
some other object (a class, method, tuple or similar inherited-attribute
value).  Only being a `str` or not matters downstream: comparing anything
other than two `str` values raises `TypeError`. -/
inductive PyVal where
  | str : String → PyVal
  | none : PyVal
  | dict : PyVal
  | obj : PyVal
deriving DecidableEq

/-- Value of an `Optional[str]` attribute. -/
def optStr : Option String → PyVal
  | some s => .str s
  | Option.none => .none

/-- The data-field names of the `HistoryRecord` dataclass, in declaration
order: the keys of an instance's `__dict__`. -/
def fieldNames : List String :=
  ["id", "query", "status", "created_at", "updated_at",
   "report_file_path", "report_html", "error_message", "metadata"]

/-- Docstring of the `HistoryRecord` class: the value of the inherited
`__doc__` attribute, a string equal on every record. -/
def classDoc : String := "历史记录数据结构"

/-- Name of the module defining `HistoryRecord`: the value of the inherited
`__module__` attribute, a string equal on every record. -/
def classModule : String := "history_manager"

/-- Attribute names a `HistoryRecord` instance resolves through its class
and `object` besides the data fields, `__doc__` and `__module__` (the union
over CPython versions): their values are classes, methods, dicts, tuples,
`None` or similar — never strings, so they exist but cannot be compared. -/
def objNames : List String :=
  ["__annotations__", "__class__", "__dataclass_fields__",
   "__dataclass_params__", "__delattr__", "__dict__", "__dir__", "__eq__",
   "__firstlineno__", "__format__", "__ge__", "__getattribute__",
   "__getstate__", "__gt__", "__hash__", "__init__", "__init_subclass__",
   "__le__", "__lt__", "__match_args__", "__ne__", "__new__", "__reduce__",
   "__reduce_ex__", "__replace__", "__repr__", "__setattr__", "__sizeof__",
   "__static_attributes__", "__str__", "__subclasshook__", "__weakref__"]

/-- Every attribute name that `getattr` resolves on a `HistoryRecord`
instance: the nine data fields, the two string-valued inherited attributes,
and the other inherited attributes. -/
def attrNames : List String :=
  fieldNames ++ ["__doc__", "__module__"] ++ objNames

/-- Embedding of `getattr(x, sort_by)` on a record: instance fields resolve
to their values; names not in the instance `__dict__` fall back to the class
and its bases (`__doc__` and `__module__` are strings, the other inherited
attributes are non-string objects); any other name raises
`AttributeError`. -/
def getattr? (r : HistoryRecord) (field : String) : Except Unit PyVal :=
  if field = "id" then .ok (.str r.id)
  else if field = "query" then .ok (.str r.query)
  else if field = "status" then .ok (.str r.status)
  else if field = "created_at" then .ok (.str r.created_at)
  else if field = "updated_at" then .ok (.str r.updated_at)
  else if field = "report_file_path" then .ok (optStr r.report_file_path)
  else if field = "report_html" then .ok (optStr r.report_html)
  else if field = "error_message" then .ok (optStr r.error_message)
  else if field = "metadata" then
    .ok (match r.metadata with | some _ => .dict | Option.none => .none)
  else if field = "__doc__" then .ok (.str classDoc)
  else if field = "__module__" then .ok (.str classModule)
  else if field ∈ objNames then .ok .obj
  else .error ()

/-- Lexicographic (code-point) order on character lists, as Python compares
`str` values. -/
def lexLe : List Char → List Char → Bool
  | [], _ => true
  | _ :: _, [] => false
  | a :: as, b :: bs => if a = b then lexLe as bs else decide (a < b)

/-- Python's `<=` on strings: code-point lexicographic order. -/
def strLeB (s t : String) : Bool := lexLe s.data t.data

/-- Comparison of two Python sort keys: defined between two `str` values,
raising `TypeError` whenever either side is `None` or a `dict`. -/
def pyLeB : PyVal → PyVal → Except Unit Bool
  | .str s, .str t => .ok (strLeB s t)
  | _, _ => .error ()

/-- Effectful `map` over a list in `Except`: the loop bodies of
`get_all_records` and the sort-key precomputation, stopping at the first
raised exception. -/
def mapExcept {α β : Type} (f : α → Except Unit β) : List α → Except Unit (List β)
  | [] => .ok []
  | x :: xs =>
      match f x with
      | .error e => .error e
      | .ok y =>
          match mapExcept f xs with
          | .error e => .error e
          | .ok ys => .ok (y :: ys)

/-- Stable insertion into a sorted list: `le x y = true` means `x` may be
placed before `y`. -/
def ordIns {α : Type} (le : α → α → Bool) (x : α) : List α → List α
  | [] => [x]
  | y :: ys => if le x y then x :: y :: ys else y :: ordIns le x ys

/-- Stable insertion sort: the reference model of Python's stable
`list.sort`, which any stable sort with the same total order equals. -/
def insSort {α : Type} (le : α → α → Bool) : List α → List α
  | [] => []
  | x :: xs => ordIns le x (insSort le xs)

/-- The comparison `list.sort(key=..., reverse=reverse)` induces on records
for a string-valued key: ascending when `reverse` is false, descending when
`reverse` is true; ties always keep input order. -/
def leK (reverse : Bool) (k : HistoryRecord → String) (a b : HistoryRecord) : Bool :=
  if reverse then strLeB (k b) (k a) else strLeB (k a) (k b)

/-- Sorting records by a string-valued key, in the direction chosen by
`reverse`, stably. -/
def insSortByKey (k : HistoryRecord → String) (reverse : Bool)
    (l : List HistoryRecord) : List HistoryRecord :=
  insSort (leK reverse k) l

/-- Comparison of two precomputed (key, record) pairs, as performed inside
Python's sort; raises `TypeError` on non-string keys. -/
def cmpKey (reverse : Bool) (a b : PyVal × HistoryRecord) : Except Unit Bool :=
  if reverse then pyLeB b.1 a.1 else pyLeB a.1 b.1

/-- Effectful stable insertion into a sorted list, propagating a comparison
exception. -/
def mOrdIns {α : Type} (le : α → α → Except Unit Bool) (x : α) :
    List α → Except Unit (List α)
  | [] => .ok [x]
  | y :: ys =>
      match le x y with
      | .error e => .error e
      | .ok true => .ok (x :: y :: ys)
      | .ok false =>
          match mOrdIns le x ys with
          | .error e => .error e
          | .ok zs => .ok (y :: zs)

/-- Effectful stable insertion sort: the model of Python's `list.sort` with a
comparison that may raise `TypeError`.  It raises exactly when the list has
at least two elements and some key is not a string, as CPython's sort does. -/
def mInsSort {α : Type} (le : α → α → Except Unit Bool) :
    List α → Except Unit (List α)
  | [] => .ok []
  | x :: xs =>
      match mInsSort le xs with
      | .error e => .error e
      | .ok ys => mOrdIns le x ys

/-- Body of `save_record`, before the `except` clause: serialize the record
and write it to `f"{record.id}.json"`, fully replacing any file of that
name; an I/O fault raises. -/
def saveBody (ioFail : Bool) (st : Store) (r : HistoryRecord) : Except Unit Store :=
  if ioFail then .error ()
  else .ok ⟨st.files.filter (fun f => !(f.1 == fileName r.id)) ++
            [(fileName r.id, .record r)], st.dirExists⟩

/-- Operation `save_record`: returns `True` on a confirmed write and `False`
when the body raised. -/
def save_record (ioFail : Bool) (st : Store) (r : HistoryRecord) : Bool × Store :=
  match saveBody ioFail st r with
  | .ok st2 => (true, st2)
  | .error _ => (false, st)

/-- Body of `get_record`: check existence of `f"{record_id}.json"`, returning
`None` when absent; otherwise read and deserialize the file, where an I/O
fault or corrupt content raises. -/
def getBody (ioFail : Bool) (st : Store) (rid : String) :
    Except Unit (Option HistoryRecord) :=
  match lookup (fileName rid) st.files with
  | Option.none => .ok Option.none
  | some c => if ioFail then .error () else (parseFile c).map some

/-- Operation `get_record`: the body's result, with any raised exception
converted to `None`. -/
def get_record (ioFail : Bool) (st : Store) (rid : String) : Option HistoryRecord :=
  match getBody ioFail st rid with
  | .ok v => v
  | .error _ => Option.none

/-- The files enumerated by `glob("*.json")`, in directory order. -/
def recordFiles (st : Store) : List (String × FileContent) :=
  st.files.filter isJsonFile

/-- Body of `get_all_records`: deserialize every `*.json` file, then sort by
`getattr(x, sort_by)` with precomputed keys; any deserialization failure,
unknown attribute, or non-string key comparison raises. -/
def getAllBody (ioFail : Bool) (st : Store) (sort_by : String) (reverse : Bool) :
    Except Unit (List HistoryRecord) :=
  if ioFail then .error ()
  else
    match mapExcept (fun f => parseFile f.2) (recordFiles st) with
    | .error e => .error e
    | .ok records =>
        match mapExcept (fun r => (getattr? r sort_by).map (fun v => (v, r))) records with
        | .error e => .error e
        | .ok keyed =>
            match mInsSort (cmpKey reverse) keyed with
            | .error e => .error e
            | .ok sorted => .ok (sorted.map (fun p => p.2))

/-- Operation `get_all_records`: the body's records, with any raised
exception converted to the empty list. -/
def get_all_records (ioFail : Bool) (st : Store) (sort_by : String)
    (reverse : Bool) : List HistoryRecord :=
  match getAllBody ioFail st sort_by reverse with
  | .ok l => l
  | .error _ => []

/-- Body of `delete_record`: if `f"{record_id}.json"` exists, unlink it
(an I/O fault while unlinking raises); an absent file is left alone. -/
def deleteBody (ioFail : Bool) (st : Store) (rid : String) : Except Unit Store :=
  match lookup (fileName rid) st.files with
  | Option.none => .ok st
  | some _ =>
      if ioFail then .error ()
      else .ok ⟨st.files.filter (fun f => !(f.1 == fileName rid)), st.dirExists⟩

/-- Operation `delete_record`: `True` unless the body raised. -/
def delete_record (ioFail : Bool) (st : Store) (rid : String) : Bool × Store :=
  match deleteBody ioFail st rid with
  | .ok st2 => (true, st2)
  | .error _ => (false, st)

/-- Number of files matched by `glob("*.json")`. -/
def jsonCount (st : Store) : Nat := (recordFiles st).length

/-- Removal of the first `k` files matching `*.json`, in enumeration order:
the partly-cleared directory left behind when the `(k+1)`-st unlink of
`clear_all_records` raises. -/
def removeKJson : Nat → List (String × FileContent) → List (String × FileContent)
  | _, [] => []
  | 0, fs => fs
  | k + 1, f :: fs =>
      if isJsonFile f then removeKJson k fs else f :: removeKJson (k + 1) fs

/-- Body of `clear_all_records`: unlink every `*.json` file in enumeration
order.  `failAt = some k` (with `k` below the number of matched files) makes
the `(k+1)`-st unlink raise, leaving the first `k` files deleted. -/
def clearBody (failAt : Option Nat) (st : Store) : Except Store Store :=
  match failAt with
  | Option.none => .ok ⟨st.files.filter (fun f => !(isJsonFile f)), st.dirExists⟩
  | some k =>
      if k < jsonCount st then .error ⟨removeKJson k st.files, st.dirExists⟩
      else .ok ⟨st.files.filter (fun f => !(isJsonFile f)), st.dirExists⟩

/-- Operation `clear_all_records`: `True` when every unlink succeeded,
`False` when one raised partway (already-deleted files stay deleted). -/
def clear_all_records (failAt : Option Nat) (st : Store) : Bool × Store :=
  match clearBody failAt st with
  | .ok st2 => (true, st2)
  | .error st2 => (false, st2)

/-- Sample record created on 2024-01-01. -/
def rA : HistoryRecord :=
  ⟨"a", "qa", "completed", "2024-01-01", "2024-01-01",
   Option.none, Option.none, Option.none, Option.none⟩

/-- Sample record created on 2024-03-01. -/
def rB : HistoryRecord :=
  ⟨"b", "qb", "running", "2024-03-01", "2024-03-01",
   Option.none, Option.none, Option.none, Option.none⟩

/-- Sample record created on 2024-02-01. -/
def rC : HistoryRecord :=
  ⟨"c", "qc", "failed", "2024-02-01", "2024-02-01",
   Option.none, Option.none, Option.none, Option.none⟩

/-- A store holding the three sample records, saved in id order. -/
def dateStore : Store :=
  ⟨[("a.json", FileContent.record rA), ("b.json", FileContent.record rB),
    ("c.json", FileContent.record rC)], true⟩

/-- A store holding one well-formed record file and one file whose content
fails to deserialize. -/
def corruptStore : Store :=
  ⟨[("a.json", FileContent.record rA), ("bad.json", FileContent.corrupt)], true⟩

theorem find?_filter_not {α : Type} (p : α → Bool) (l : List α) (x : α)
    (hx : p x = true) :
    List.find? p (l.filter (fun a => !(p a)) ++ [x]) = some x := by
  induction l with
  | nil => simp [List.find?, hx]
  | cons a as ih =>
      cases h : p a with
      | true => simpa [List.filter_cons, h] using ih
      | false => simpa [List.filter_cons, h, List.find?] using ih

theorem filter_pos_filter_neg {α : Type} (p : α → Bool) (l : List α) :
    (l.filter (fun a => !(p a))).filter p = [] := by
  rw [List.filter_filter]
  have h : (fun a => p a && !(p a)) = fun _ : α => false := by
    funext a; exact Bool.and_not_self _
  rw [h, List.filter_false]

theorem save_files (st : Store) (r : HistoryRecord) :
    (save_record false st r).2.files =
      st.files.filter (fun f => !(f.1 == fileName r.id)) ++
        [(fileName r.id, FileContent.record r)] := rfl

theorem lookup_save (st : Store) (r : HistoryRecord) :
    lookup (fileName r.id) (save_record false st r).2.files =
      some (FileContent.record r) := by
  rw [save_files]
  unfold lookup
  rw [find?_filter_not (fun f => f.1 == fileName r.id) st.files
    (fileName r.id, FileContent.record r) (by simp)]
  rfl

theorem get_record_of_lookup (st : Store) (rid : String) (r : HistoryRecord)
    (h : lookup (fileName rid) st.files = some (FileContent.record r)) :
    get_record false st rid = some r := by
  simp [get_record, getBody, h, parseFile, Except.map]

/-- Claim C1: saving a fully-formed record and then getting its id returns a
record equal in all nine fields to the one saved. -/
theorem save_get_roundtrip (io : Bool) (st : Store) (r : HistoryRecord)
    (h : (save_record io st r).1 = true) :
    get_record false (save_record io st r).2 r.id = some r := by
  cases io with
  | true => exact absurd h (by simp [save_record, saveBody])
  | false => exact get_record_of_lookup _ _ _ (lookup_save st r)

/-- Witness for C1 at a concrete store and record. -/
theorem save_get_roundtrip_witness :
    (save_record false dateStore rC).1 = true ∧
    get_record false (save_record false dateStore rC).2 rC.id = some rC :=
  ⟨by decide, save_get_roundtrip false dateStore rC (by decide)⟩

/-- Claim C6: getting an id whose file is absent returns absence, and getting
an id whose file exists but fails to parse also returns absence. -/
theorem get_absent_or_corrupt_is_none (io : Bool) (st : Store) (rid : String) :
    (lookup (fileName rid) st.files = Option.none →
      get_record io st rid = Option.none) ∧
    (lookup (fileName rid) st.files = some FileContent.corrupt →
      get_record io st rid = Option.none) := by
  constructor
  · intro h; simp [get_record, getBody, h]
  · intro h; cases io <;> simp [get_record, getBody, h, parseFile, Except.map]

/-- Witness for C6: a never-saved id and a corrupt file both read as absent. -/
theorem get_absent_or_corrupt_is_none_witness :
    lookup (fileName "zzz") dateStore.files = Option.none ∧
    get_record false dateStore "zzz" = Option.none ∧
    lookup (fileName "bad") corruptStore.files = some FileContent.corrupt ∧
    get_record false corruptStore "bad" = Option.none :=
  ⟨by decide, (get_absent_or_corrupt_is_none false dateStore "zzz").1 (by decide),
   by decide,
   (get_absent_or_corrupt_is_none false corruptStore "bad").2 (by decide)⟩

/-- Claim C5: delete returns success both when the file was removed and when
it never existed, and returns failure exactly when an I/O fault occurs while
removing an existing file. -/
theorem delete_absence_is_success (io : Bool) (st : Store) (rid : String) :
    (lookup (fileName rid) st.files = Option.none →
      delete_record io st rid = (true, st)) ∧
    (lookup (fileName rid) st.files ≠ Option.none → io = false →
      (delete_record io st rid).1 = true) ∧
    ((delete_record io st rid).1 = false ↔
      (lookup (fileName rid) st.files ≠ Option.none ∧ io = true)) := by
  refine ⟨fun h => by simp [delete_record, deleteBody, h], fun h hio => ?_, ?_⟩
  · rcases ho : lookup (fileName rid) st.files with _ | c
    · simp [delete_record, deleteBody, ho]
    · simp [delete_record, deleteBody, ho, hio]
  · rcases ho : lookup (fileName rid) st.files with _ | c
    · simp [delete_record, deleteBody, ho]
    · cases io <;> simp [delete_record, deleteBody, ho]

/-- Witness for C5: deleting a never-saved id from a concrete store. -/
theorem delete_absence_is_success_witness :
    lookup (fileName "zzz") dateStore.files = Option.none ∧
    delete_record false dateStore "zzz" = (true, dateStore) :=
  ⟨by decide,
   (delete_absence_is_success false dateStore "zzz").1 (by decide)⟩

/-- Claim C7: saving twice with the same id overwrites in place; the second
get returns only the later record and exactly one file exists for that id. -/
theorem save_twice_overwrites (io1 io2 : Bool) (st : Store)
    (r1 r2 : HistoryRecord) (hid : r1.id = r2.id)
    (h1 : (save_record io1 st r1).1 = true)
    (h2 : (save_record io2 (save_record io1 st r1).2 r2).1 = true) :
    get_record false (save_record io2 (save_record io1 st r1).2 r2).2 r1.id =
      some r2 ∧
    ((save_record io2 (save_record io1 st r1).2 r2).2.files.filter
      (fun f => f.1 == fileName r1.id)).length = 1 := by
  cases io1 with
  | true => exact absurd h1 (by simp [save_record, saveBody])
  | false =>
      cases io2 with
      | true => exact absurd h2 (by simp [save_record, saveBody])
      | false =>
          constructor
          · rw [hid]
            exact get_record_of_lookup _ _ _
              (lookup_save (save_record false st r1).2 r2)
          · rw [hid, save_files, List.filter_append, filter_pos_filter_neg]
            simp

/-- Witness for C7: overwriting the record with id `"a"` in a concrete
store. -/
theorem save_twice_overwrites_witness :
    get_record false
      (save_record false (save_record false dateStore
        ⟨"a", "q1", "running", "2024-01-01", "2024-01-01",
         Option.none, Option.none, Option.none, Option.none⟩).2
        ⟨"a", "q2", "completed", "2024-01-01", "2024-01-02",
         Option.none, Option.none, Option.none, Option.none⟩).2 "a" =
      some ⟨"a", "q2", "completed", "2024-01-01", "2024-01-02",
        Option.none, Option.none, Option.none, Option.none⟩ :=
  (save_twice_overwrites false false dateStore
    ⟨"a", "q1", "running", "2024-01-01", "2024-01-01",
     Option.none, Option.none, Option.none, Option.none⟩
    ⟨"a", "q2", "completed", "2024-01-01", "2024-01-02",
     Option.none, Option.none, Option.none, Option.none⟩
    rfl (by decide) (by decide)).1

theorem mapExcept_error_of_mem {α β : Type} (f : α → Except Unit β) (l : List α)
    (x : α) (hx : x ∈ l) (he : f x = .error ()) :
    mapExcept f l = .error () := by
  induction l with
  | nil => cases hx
  | cons y ys ih =>
      rcases List.mem_cons.mp hx with rfl | hmem
      · simp [mapExcept, he]
      · cases hf : f y with
        | error e => cases e; simp [mapExcept, hf]
        | ok v => simp [mapExcept, hf, ih hmem]

theorem mapExcept_map {α β : Type} (f : α → Except Unit β) (g : α → β)
    (l : List α) (h : ∀ x ∈ l, f x = .ok (g x)) :
    mapExcept f l = .ok (l.map g) := by
  induction l with
  | nil => rfl
  | cons y ys ih =>
      have hy := h y (List.mem_cons_self y ys)
      have hys := ih (fun x hx => h x (List.mem_cons_of_mem _ hx))
      simp [mapExcept, hy, hys]

/-- Counterexample to claim C2 as stated: in a store with one record that
deserializes and one corrupt file, `get_all_records` returns the empty list
instead of the list of records that deserialize successfully. -/
theorem getAll_corrupt_counterexample :
    get_all_records false corruptStore "created_at" true = [] ∧
    ([] : List HistoryRecord) ≠ [rA] :=
  ⟨by decide, by decide⟩

/-- Claim C2 (amended): a deserialization failure is not skipped per file;
whenever any .json file in the store fails to deserialize, the exception
aborts the whole scan and `get_all_records` returns the empty sequence,
dropping the records that would have deserialized successfully. -/
theorem getAll_corrupt_aborts (st : Store) (s : String) (b : Bool)
    (hc : ∃ f ∈ st.files, isJsonFile f = true ∧ f.2 = FileContent.corrupt) :
    get_all_records false st s b = [] := by
  obtain ⟨f, hmem, hjson, hcorr⟩ := hc
  have hf : f ∈ recordFiles st := List.mem_filter.mpr ⟨hmem, hjson⟩
  have herr : mapExcept (fun f => parseFile f.2) (recordFiles st) = .error () :=
    mapExcept_error_of_mem _ _ f hf (by rw [hcorr]; rfl)
  simp [get_all_records, getAllBody, herr]

/-- Witness for the amended C2 at a concrete store. -/
theorem getAll_corrupt_aborts_witness :
    get_all_records false corruptStore "updated_at" false = [] :=
  getAll_corrupt_aborts corruptStore "updated_at" false
    ⟨("bad.json", FileContent.corrupt), by decide, by decide, rfl⟩

/-- Claim C4: each of the five operations converts any internal failure into
its ordinary negative result — `false` for save, absence for get, the empty
sequence for the listing, `false` for delete when the unlink of an existing
file fails, and `false` for clear when an unlink fails partway. -/
theorem ops_swallow_failures :
    (∀ st r, save_record true st r = (false, st)) ∧
    (∀ st rid, get_record true st rid = Option.none) ∧
    (∀ st s b, get_all_records true st s b = []) ∧
    (∀ st rid, lookup (fileName rid) st.files ≠ Option.none →
      (delete_record true st rid).1 = false) ∧
    (∀ st k, k < jsonCount st → (clear_all_records (some k) st).1 = false) := by
  refine ⟨fun st r => rfl, fun st rid => ?_, fun st s b => rfl,
    fun st rid h => ?_, fun st k h => ?_⟩
  · rcases ho : lookup (fileName rid) st.files with _ | c
    · simp [get_record, getBody, ho]
    · simp [get_record, getBody, ho]
  · rcases ho : lookup (fileName rid) st.files with _ | c
    · exact absurd ho h
    · simp [delete_record, deleteBody, ho]
  · simp [clear_all_records, clearBody, h]

/-- Witness for C4: each failure case evaluated at a concrete store. -/
theorem ops_swallow_failures_witness :
    save_record true dateStore rA = (false, dateStore) ∧
    get_record true dateStore "a" = Option.none ∧
    get_all_records true dateStore "created_at" true = [] ∧
    (delete_record true dateStore "a").1 = false ∧
    (clear_all_records (some 0) dateStore).1 = false :=
  ⟨ops_swallow_failures.1 dateStore rA,
   ops_swallow_failures.2.1 dateStore "a",
   ops_swallow_failures.2.2.1 dateStore "created_at" true,
   ops_swallow_failures.2.2.2.1 dateStore "a" (by decide),
   ops_swallow_failures.2.2.2.2 dateStore 0 (by decide)⟩

theorem clear_success_state (o : Option Nat) (st : Store)
    (h : (clear_all_records o st).1 = true) :
    (clear_all_records o st).2 =
      ⟨st.files.filter (fun f => !(isJsonFile f)), st.dirExists⟩ := by
  cases o with
  | none => rfl
  | some k =>
      by_cases hk : k < jsonCount st
      · exact absurd h (by simp [clear_all_records, clearBody, hk])
      · simp [clear_all_records, clearBody, hk]

/-- Claim C8: after a successful clear, the listing returns the empty
sequence and the storage directory itself still exists. -/
theorem clear_then_getAll_empty (o : Option Nat) (st : Store) (s : String)
    (b : Bool) (h : (clear_all_records o st).1 = true) :
    get_all_records false (clear_all_records o st).2 s b = [] ∧
    (clear_all_records o st).2.dirExists = st.dirExists := by
  rw [clear_success_state o st h]
  refine ⟨?_, rfl⟩
  have hrf : recordFiles
      ⟨st.files.filter (fun f => !(isJsonFile f)), st.dirExists⟩ = [] :=
    filter_pos_filter_neg _ _
  simp [get_all_records, getAllBody, hrf, mapExcept, mInsSort]

/-- Witness for C8 at a concrete store. -/
theorem clear_then_getAll_empty_witness :
    get_all_records false (clear_all_records Option.none dateStore).2
      "created_at" true = [] ∧
    (clear_all_records Option.none dateStore).2.dirExists =
      dateStore.dirExists :=
  clear_then_getAll_empty Option.none dateStore "created_at" true rfl

theorem removeKJson_filter_not_json (k : Nat) (l : List (String × FileContent)) :
    (removeKJson k l).filter (fun f => !(isJsonFile f)) =
      l.filter (fun f => !(isJsonFile f)) := by
  induction l generalizing k with
  | nil => simp [removeKJson]
  | cons f fs ih =>
      cases k with
      | zero => rfl
      | succ k =>
          cases hj : isJsonFile f with
          | true => simp [removeKJson, hj, List.filter_cons, ih]
          | false => simp [removeKJson, hj, List.filter_cons, ih]

/-- Claim C9: a file without the .json extension is left untouched by clear
(in any outcome) and never contributes a record to the listing, which reads
only the .json files. -/
theorem nonjson_files_frame (o : Option Nat) (st : Store) :
    ((clear_all_records o st).2.files.filter (fun f => !(isJsonFile f)) =
      st.files.filter (fun f => !(isJsonFile f))) ∧
    (∀ io s b, get_all_records io st s b =
      get_all_records io ⟨st.files.filter isJsonFile, st.dirExists⟩ s b) := by
  constructor
  · cases o with
    | none =>
        show (st.files.filter (fun f => !(isJsonFile f))).filter
          (fun f => !(isJsonFile f)) = _
        rw [List.filter_filter]
        simp
    | some k =>
        by_cases hk : k < jsonCount st
        · have hstate : (clear_all_records (some k) st).2 =
              ⟨removeKJson k st.files, st.dirExists⟩ := by
            simp [clear_all_records, clearBody, hk]
          rw [hstate]
          exact removeKJson_filter_not_json k st.files
        · have hstate : (clear_all_records (some k) st).2 =
              ⟨st.files.filter (fun f => !(isJsonFile f)), st.dirExists⟩ := by
            simp [clear_all_records, clearBody, hk]
          rw [hstate]
          show (st.files.filter (fun f => !(isJsonFile f))).filter
            (fun f => !(isJsonFile f)) = _
          rw [List.filter_filter]
          simp
  · intro io s b
    have hrf : recordFiles ⟨st.files.filter isJsonFile, st.dirExists⟩ =
        recordFiles st := by
      show (st.files.filter isJsonFile).filter isJsonFile = _
      rw [List.filter_filter]
      simp [recordFiles]
    unfold get_all_records getAllBody
    rw [hrf]

theorem getattr_unknown {r : HistoryRecord} {s : String} (h : s ∉ attrNames) :
    getattr? r s = .error () := by
  have hf : s ∉ fieldNames := fun hc =>
    h (by simp [attrNames, List.mem_append, hc])
  have hdoc : ¬ s = "__doc__" := fun hc =>
    h (by rw [hc]; decide)
  have hmod : ¬ s = "__module__" := fun hc =>
    h (by rw [hc]; decide)
  have hobj : s ∉ objNames := fun hc =>
    h (by simp [attrNames, List.mem_append, hc])
  simp only [fieldNames, List.mem_cons, List.not_mem_nil, or_false,
    not_or] at hf
  obtain ⟨h1, h2, h3, h4, h5, h6, h7, h8, h9⟩ := hf
  simp [getattr?, h1, h2, h3, h4, h5, h6, h7, h8, h9, hdoc, hmod, hobj]

/-- Counterexample to claim C10 as stated: the name `__doc__` is not a field
of `HistoryRecord`, yet `getattr` resolves it through the class to the
docstring, a string equal on every record, so sorting by it succeeds and
`get_all_records` returns all three stored records (in encounter order, the
sort being stable) instead of the empty sequence. -/
theorem getAll_inherited_attr_counterexample :
    ("__doc__" ∈ fieldNames) = False ∧
    get_all_records false dateStore "__doc__" true = [rA, rB, rC] ∧
    [rA, rB, rC] ≠ ([] : List HistoryRecord) :=
  ⟨by simp [fieldNames], by decide, by decide⟩

/-- Claim C10 (amended): calling the listing with a sort field that is not
an attribute of `HistoryRecord` instances at all — neither one of the nine
data fields nor an attribute inherited from the dataclass machinery or
`object`, such as `__doc__` or `__class__` — returns the empty sequence
rather than raising, whatever the store contains: the `AttributeError`
raised while computing the sort keys is swallowed and all collected records
are discarded. -/
theorem getAll_unknown_attr (io : Bool) (st : Store) (s : String) (b : Bool)
    (h : s ∉ attrNames) :
    get_all_records io st s b = [] := by
  cases io with
  | true => rfl
  | false =>
      unfold get_all_records getAllBody
      cases hp : mapExcept (fun f => parseFile f.2) (recordFiles st) with
      | error e => simp
      | ok records =>
          cases records with
          | nil => simp [mapExcept, mInsSort]
          | cons r rs =>
              have herr : mapExcept
                  (fun r => (getattr? r s).map (fun v => (v, r))) (r :: rs) =
                  .error () := by
                simp [mapExcept, getattr_unknown h, Except.map]
              simp [herr]

/-- Witness for the amended C10: a name that is no attribute at all, on a
store that holds three well-formed records. -/
theorem getAll_unknown_attr_witness :
    get_all_records false dateStore "nonexistent" true = [] :=
  getAll_unknown_attr false dateStore "nonexistent" true (by decide)

theorem lexLe_refl (s : List Char) : lexLe s s = true := by
  induction s with
  | nil => rfl
  | cons a as ih => simp [lexLe, ih]

theorem lexLe_total (s t : List Char) (h : lexLe s t = false) :
    lexLe t s = true := by
  induction s generalizing t with
  | nil => simp [lexLe] at h
  | cons a as ih =>
      cases t with
      | nil => simp [lexLe]
      | cons b bs =>
          simp only [lexLe] at h ⊢
          by_cases hab : a = b
          · subst hab
            simp at h ⊢
            exact ih _ (by simpa using h)
          · have hba : ¬ b = a := fun hc => hab hc.symm
            simp [hab, hba] at h ⊢
            exact h.lt_of_ne hba

theorem strLeB_refl (s : String) : strLeB s s = true := lexLe_refl s.data

theorem strLeB_total (s t : String) (h : strLeB s t = false) :
    strLeB t s = true := lexLe_total s.data t.data h

theorem leK_total (b : Bool) (k : HistoryRecord → String) (x y : HistoryRecord)
    (h : leK b k x y = false) : leK b k y x = true := by
  cases b with
  | true => exact strLeB_total _ _ h
  | false => exact strLeB_total _ _ h

theorem leK_of_eq (b : Bool) (k : HistoryRecord → String) {x y : HistoryRecord}
    (h : k x = k y) : leK b k x y = true := by
  cases b with
  | true => show strLeB (k y) (k x) = true; rw [h]; exact strLeB_refl _
  | false => show strLeB (k x) (k y) = true; rw [h]; exact strLeB_refl _

theorem chain'_ordIns {α : Type} (le : α → α → Bool)
    (htot : ∀ a b, le a b = false → le b a = true) (x : α) (l : List α)
    (h : l.Chain' (fun a b => le a b = true)) :
    (ordIns le x l).Chain' (fun a b => le a b = true) := by
  induction l with
  | nil => simp [ordIns]
  | cons y ys ih =>
      cases hxy : le x y with
      | true =>
          simp only [ordIns, hxy, if_true]
          exact List.chain'_cons.mpr ⟨hxy, h⟩
      | false =>
          have hstep : (ordIns le x (y :: ys)) = y :: ordIns le x ys := by
            simp [ordIns, hxy]
          rw [hstep]
          have hys : (ordIns le x ys).Chain' (fun a b => le a b = true) :=
            ih h.tail
          refine List.chain'_cons'.mpr ⟨?_, hys⟩
          intro z hz
          cases ys with
          | nil =>
              simp [ordIns] at hz
              subst hz
              exact htot x y hxy
          | cons w ws =>
              cases hxw : le x w with
              | true =>
                  simp [ordIns, hxw] at hz
                  subst hz
                  exact htot x y hxy
              | false =>
                  simp [ordIns, hxw] at hz
                  subst hz
                  exact (List.chain'_cons.mp h).1

theorem chain'_insSort {α : Type} (le : α → α → Bool)
    (htot : ∀ a b, le a b = false → le b a = true) (l : List α) :
    (insSort le l).Chain' (fun a b => le a b = true) := by
  induction l with
  | nil => simp [insSort]
  | cons x xs ih => exact chain'_ordIns le htot x _ ih

theorem ordIns_perm {α : Type} (le : α → α → Bool) (x : α) (l : List α) :
    List.Perm (ordIns le x l) (x :: l) := by
  induction l with
  | nil => exact List.Perm.refl _
  | cons y ys ih =>
      cases h : le x y with
      | true => simp [ordIns, h]
      | false =>
          have hstep : (ordIns le x (y :: ys)) = y :: ordIns le x ys := by
            simp [ordIns, h]
          rw [hstep]
          exact (ih.cons y).trans (List.Perm.swap x y ys)

theorem insSort_perm {α : Type} (le : α → α → Bool) (l : List α) :
    List.Perm (insSort le l) l := by
  induction l with
  | nil => exact List.Perm.refl _
  | cons x xs ih => exact (ordIns_perm le x (insSort le xs)).trans (ih.cons x)

theorem filter_ordIns_pos {α : Type} (le : α → α → Bool) (p : α → Bool) (x : α)
    (hpx : p x = true) (hx : ∀ y, le x y = false → p y = false) (l : List α) :
    (ordIns le x l).filter p = x :: l.filter p := by
  induction l with
  | nil => simp [ordIns, hpx]
  | cons y ys ih =>
      cases h : le x y with
      | true => simp [ordIns, h, List.filter_cons, hpx]
      | false =>
          have hpy := hx y h
          simp [ordIns, h, List.filter_cons, hpy, ih]

theorem filter_ordIns_neg {α : Type} (le : α → α → Bool) (p : α → Bool) (x : α)
    (hpx : p x = false) (l : List α) :
    (ordIns le x l).filter p = l.filter p := by
  induction l with
  | nil => simp [ordIns, hpx]
  | cons y ys ih =>
      cases h : le x y with
      | true => simp [ordIns, h, List.filter_cons, hpx]
      | false => simp [ordIns, h, List.filter_cons, ih]

theorem filter_insSort {α : Type} (le : α → α → Bool) (p : α → Bool)
    (hcond : ∀ x y, p x = true → le x y = false → p y = false) (l : List α) :
    (insSort le l).filter p = l.filter p := by
  induction l with
  | nil => rfl
  | cons x xs ih =>
      show (ordIns le x (insSort le xs)).filter p = (x :: xs).filter p
      cases hpx : p x with
      | true =>
          rw [filter_ordIns_pos le p x hpx (fun y hy => hcond x y hpx hy), ih]
          simp [List.filter_cons, hpx]
      | false =>
          rw [filter_ordIns_neg le p x hpx, ih]
          simp [List.filter_cons, hpx]

theorem mOrdIns_str (k : HistoryRecord → String) (b : Bool) (x : HistoryRecord)
    (l : List HistoryRecord) :
    mOrdIns (cmpKey b) (PyVal.str (k x), x)
      (l.map (fun r => (PyVal.str (k r), r))) =
      .ok ((ordIns (leK b k) x l).map (fun r => (PyVal.str (k r), r))) := by
  induction l with
  | nil => rfl
  | cons y ys ih =>
      have hc : cmpKey b (PyVal.str (k x), x) (PyVal.str (k y), y) =
          .ok (leK b k x y) := by
        cases b <;> rfl
      cases h : leK b k x y with
      | true => simp [mOrdIns, List.map, hc, h, ordIns]
      | false => simp [mOrdIns, List.map, hc, h, ordIns, ih]

theorem mInsSort_str (k : HistoryRecord → String) (b : Bool)
    (l : List HistoryRecord) :
    mInsSort (cmpKey b) (l.map (fun r => (PyVal.str (k r), r))) =
      .ok ((insSort (leK b k) l).map (fun r => (PyVal.str (k r), r))) := by
  induction l with
  | nil => rfl
  | cons x xs ih => simp [mInsSort, List.map, ih, insSort, mOrdIns_str]

/-- Counterexample to claim C3 as stated: sorting by the record field
`report_file_path`, whose value is `None` on all three stored records, does
not return the records sorted — the comparison of `None` values raises and
`get_all_records` returns the empty list, which has the wrong length to be
any ordering of the three records. -/
theorem getAll_none_key_counterexample :
    get_all_records false dateStore "report_file_path" true = [] ∧
    ([] : List HistoryRecord).length ≠ [rA, rB, rC].length :=
  ⟨by decide, by decide⟩

/-- Claim C3 (amended): when every .json file deserializes and the named sort
field has a string value on every retrieved record, `get_all_records` sorts
the records by that field in code-point lexicographic order, descending when
`reverse` is true and ascending otherwise, with ties kept in encounter order
(a stable sort): the result is the stable insertion sort of the records by
the key, is sorted in the chosen direction, is a permutation of the records,
and preserves the relative order of records whose keys are equal.  For a
field whose values are not all strings the comparison failure is swallowed
and the empty list is returned instead (see the counterexample). -/
theorem getAll_sorted_stable (st : Store) (s : String) (b : Bool)
    (k : HistoryRecord → String) (recs : List HistoryRecord)
    (hrec : mapExcept (fun f => parseFile f.2) (recordFiles st) = .ok recs)
    (hkey : ∀ r ∈ recs, getattr? r s = .ok (.str (k r))) :
    get_all_records false st s b = insSortByKey k b recs ∧
    (get_all_records false st s b).Chain' (fun a c => leK b k a c = true) ∧
    List.Perm (get_all_records false st s b) recs ∧
    (∀ kv, (get_all_records false st s b).filter (fun r => k r == kv) =
      recs.filter (fun r => k r == kv)) := by
  have hkeyed : mapExcept (fun r => (getattr? r s).map (fun v => (v, r))) recs =
      .ok (recs.map (fun r => (PyVal.str (k r), r))) :=
    mapExcept_map _ _ recs (fun r hr => by rw [hkey r hr]; rfl)
  have hmain : get_all_records false st s b = insSortByKey k b recs := by
    unfold get_all_records getAllBody
    simp only [hrec, hkeyed, mInsSort_str]
    simp [insSortByKey, List.map_map, Function.comp_def]
  refine ⟨hmain, ?_, ?_, ?_⟩
  · rw [hmain]
    exact chain'_insSort (leK b k) (leK_total b k) recs
  · rw [hmain]
    exact insSort_perm (leK b k) recs
  · intro kv
    rw [hmain]
    refine filter_insSort (leK b k) (fun r => k r == kv) ?_ recs
    intro x y hx hxy
    cases hy : (k y == kv) with
    | true =>
        have hxy2 : k x = k y := by
          rw [beq_iff_eq] at hx hy
          rw [hx, hy]
        have := leK_of_eq b k hxy2
        rw [hxy] at this
        cases this
    | false => exact hy

/-- Witness for the amended C3: the three sample records with created_at
dates 01-01, 03-01 and 02-01, sorted by created_at descending, come back in
the order 03-01, 02-01, 01-01. -/
theorem getAll_sorted_stable_witness :
    get_all_records false dateStore "created_at" true = [rB, rC, rA] :=
  (getAll_sorted_stable dateStore "created_at" true
    (fun r => r.created_at) [rA, rB, rC] (by decide) (by decide)).1.trans
    (by decide)

end HistoryStore
